import Mathlib

/-!
Verification of the skipchain client (`skipchain-rpc.ts`): the chain-integrity
verifier `verifyChain`, the single-block fetchers, and the multi-member
failover retrieval `getLatestBlock`, embedded shallowly.  Network transport and
the aggregate-signature primitive are external collaborators of the client and
are modelled from the spec as explicit parameters / executable abstractions.
-/

namespace Skipchain

abbrev Hash := Nat
abbrev PublicKey := Nat

/-- Modelled from the spec: a server identity is a public key plus a network
address (§3 ServerIdentity); the concrete TS class lives outside the client
source. -/
structure ServerIdentity where
  publicKey : PublicKey
  address : Nat
deriving DecidableEq

/-- Modelled from the spec: a roster is an ordered sequence of server
identities (§3 Roster). -/
structure Roster where
  list : List ServerIdentity
deriving DecidableEq

/-- Modelled from the spec: the roster exposes the service-specific public
keys of its members, in roster order; the client passes these to the
forward-link signature check. -/
def Roster.getServicePublics (r : Roster) : List PublicKey :=
  r.list.map (fun s => s.publicKey)

/-- Deterministic digest of a list of naturals, used as the executable stand-in
for the cryptographic hash. -/
def hashNats (l : List Nat) : Nat :=
  l.foldl (fun a x => a * 1000003 + x + 1) 7

/-- Modelled from the spec: the external aggregate-signature verification
primitive (§6); a signature is valid exactly for the key set it was produced
over, modelled by digesting the key list. -/
def sigVerify (sig : Nat) (keys : List PublicKey) : Bool :=
  sig == hashNats keys

/-- Modelled from the spec: a forward link carries a destination block hash, an
optional replacement roster, and an aggregate signature (§3 ForwardLink); the
concrete TS class lives outside the client source. -/
structure ForwardLink where
  «to» : Hash
  newRoster : Option Roster
  signature : Nat
deriving DecidableEq

/-- Modelled from the spec: `ForwardLink.verify` checks the link's aggregate
signature against the supplied public keys (§4.1); the boolean is the
success/failure outcome of that check. -/
def ForwardLink.sigOk (l : ForwardLink) (keys : List PublicKey) : Bool :=
  sigVerify l.signature keys

/-- Modelled from the spec: a skip block with its immutable content fields, the
forward links appended later by the servers, and the stored hash field
(§3 SkipBlock); the concrete TS class lives outside the client source. -/
structure SkipBlock where
  index : Nat
  baseHeight : Nat
  maxHeight : Nat
  backlinks : List Hash
  genesis : Hash
  payload : Nat
  roster : Roster
  forwardLinks : List ForwardLink
  hash : Hash
deriving DecidableEq

/-- Modelled from the spec: `computeHash` is a deterministic digest over all
immutable block fields — index, heights, back-links, genesis id, payload and
roster snapshot — and in particular does not cover the stored hash field nor
the mutable forward links (§3, §4.1). -/
def SkipBlock.computeHash (b : SkipBlock) : Hash :=
  hashNats ([b.index, b.baseHeight, b.maxHeight, b.genesis, b.payload]
    ++ b.backlinks ++ b.roster.list.map (fun s => s.publicKey * 65536 + s.address))

/-- Error outcomes of `verifyChain`, one per distinct error message in the
source. -/
inductive ChainErr where
  | emptyChain
  | identityMismatch
  | corruptBlock
  | missingForwardLink
  | noMatchingLink
  | invalidSignature
deriving DecidableEq

/-- The pairwise loop of `verifyChain` (source lines 190–211): for each
consecutive pair, check the later block's stored hash, require a forward link
on the earlier block whose destination equals the later block's stored hash,
and verify that link's signature against the earlier block's own roster
keys. -/
def verifyPairs : SkipBlock → List SkipBlock → Option ChainErr
  | _, [] => none
  | prev, curr :: rest =>
    if !(curr.computeHash == curr.hash) then some .corruptBlock
    else if prev.forwardLinks.isEmpty then some .missingForwardLink
    else
      match prev.forwardLinks.find? (fun l => l.«to» == curr.hash) with
      | none => some .noMatchingLink
      | some link =>
        if !(link.sigOk (prev.roster.getServicePublics)) then some .invalidSignature
        else verifyPairs curr rest

/-- `verifyChain` (source lines 179–214): reject the empty chain, then check
the optional pinned first identity against the first block's recomputed hash,
then run the pairwise loop.  `none` is the success outcome (the source returns
`null`). -/
def verifyChain (blocks : List SkipBlock) (firstID : Option Hash) : Option ChainErr :=
  match blocks with
  | [] => some .emptyChain
  | b0 :: rest =>
    match firstID with
    | some fid =>
      if !(b0.computeHash == fid) then some .identityMismatch
      else verifyPairs b0 rest
    | none => verifyPairs b0 rest

/-- Error outcome of the single-block fetchers. -/
inductive FetchErr where
  | corruptBlock
deriving DecidableEq

/-- `getSkipBlock` (source lines 70–79), with the conode's reply passed
explicitly: re-verify that the returned block's recomputed hash equals its
stored hash field and fail otherwise. -/
def getSkipBlock (reply : SkipBlock) : Except FetchErr SkipBlock :=
  if !(reply.computeHash == reply.hash) then .error .corruptBlock
  else .ok reply

/-- Reply wrapper of the by-index fetch. -/
structure GetSingleBlockByIndexReply where
  skipblock : SkipBlock
deriving DecidableEq

/-- `getSkipBlockByIndex` (source lines 88–97), with the conode's reply passed
explicitly: re-verify the contained block's recomputed hash against its stored
hash field and fail otherwise. -/
def getSkipBlockByIndex (reply : GetSingleBlockByIndexReply) :
    Except FetchErr GetSingleBlockByIndexReply :=
  if !(reply.skipblock.computeHash == reply.skipblock.hash) then .error .corruptBlock
  else .ok reply

/-- Error outcomes of `getLatestBlock`.  `noConode` is the source's
terminal "no conode has the latest block"; `outOfFuel` is the model's
artifact for the source's unbounded recursion exceeding any given depth
bound — the source itself has no such error and simply keeps recursing. -/
inductive GLBErr where
  | noConode
  | outOfFuel
deriving DecidableEq

/-- Modelled from the spec: the network environment — for each contacted
server identity and requested latest-block id, either a transport failure
(`none`) or the reply's block sequence (§6 Connection). -/
abbrev Env := ServerIdentity → Hash → Option (List SkipBlock)

/-- The member loop of `getLatestBlock` (source lines 142–168): contact
members in roster order; on transport failure or verification failure continue
with the next member; on a verified reply take its last block and either
return it (no forward links) or return the result of the recursion
(`recurse`), which the source does not guard or catch; when the member list is
exhausted fail with `noConode`. -/
def tryConns (env : Env) (recurse : SkipBlock → Except GLBErr SkipBlock)
    (latestID : Hash) : List ServerIdentity → Except GLBErr SkipBlock
  | [] => .error .noConode
  | c :: rest =>
    match env c latestID with
    | none => tryConns env recurse latestID rest
    | some update =>
      match verifyChain update (some latestID) with
      | some _ => tryConns env recurse latestID rest
      | none =>
        match update.getLast? with
        | none => tryConns env recurse latestID rest
        | some b =>
          if b.forwardLinks.isEmpty then .ok b
          else recurse b

/-- `getLatestBlock` (source lines 138–169), with an explicit recursion-depth
fuel: each recursion step re-enters with the last block's own roster and own
hash (source line 160, `new SkipchainRPC(b.roster).getLatestBlock(b.hash)`). -/
def getLatestBlock (env : Env) : Nat → Roster → Hash → Except GLBErr SkipBlock
  | 0, _, _ => .error .outOfFuel
  | fuel + 1, roster, latestID =>
    tryConns env (fun b => getLatestBlock env fuel b.roster b.hash) latestID roster.list

/-- A member fails, in the sense of `getLatestBlock`'s loop, when its reply is
a transport failure or does not pass `verifyChain` pinned to the requested
id. -/
def memberFails (env : Env) (latestID : Hash) (c : ServerIdentity) : Bool :=
  match env c latestID with
  | none => true
  | some update => (verifyChain update (some latestID)).isSome

/-- Number of consecutively failing members at the front of the member list:
the failed attempts `getLatestBlock` makes and logs before its first
success. -/
def failedAttemptsBefore (env : Env) (latestID : Hash) (conns : List ServerIdentity) : Nat :=
  (conns.takeWhile (memberFails env latestID)).length

/-- Modelled from the spec: the pairwise loop of §4.2 with the running
trusted-keys state — verify each matched link against `trustedKeys`, and when
the matched link carries a replacement roster, switch `trustedKeys` to that
roster's public keys for subsequent iterations (steps 4.d and 4.e). -/
def verifyPairsSpec : List PublicKey → SkipBlock → List SkipBlock → Option ChainErr
  | _, _, [] => none
  | trustedKeys, prev, curr :: rest =>
    if !(curr.computeHash == curr.hash) then some .corruptBlock
    else if prev.forwardLinks.isEmpty then some .missingForwardLink
    else
      match prev.forwardLinks.find? (fun l => l.«to» == curr.computeHash) with
      | none => some .noMatchingLink
      | some link =>
        if !(link.sigOk trustedKeys) then some .invalidSignature
        else
          verifyPairsSpec
            (match link.newRoster with
             | some r => r.getServicePublics
             | none => trustedKeys)
            curr rest

/-- Modelled from the spec: `verifyChain` as described in §4.2 — empty check,
pinned-identity check, then the pairwise loop with `trustedKeys` initialized
to the public keys of the first block's roster (step 3). -/
def verifyChainSpec (blocks : List SkipBlock) (firstID : Option Hash) : Option ChainErr :=
  match blocks with
  | [] => some .emptyChain
  | b0 :: rest =>
    match firstID with
    | some fid =>
      if !(b0.computeHash == fid) then some .identityMismatch
      else verifyPairsSpec (b0.roster.getServicePublics) b0 rest
    | none => verifyPairsSpec (b0.roster.getServicePublics) b0 rest

/-- Modelled from the spec: the restart target of §4.3 `Recursing` — the
newest replacement roster referenced among the tip's forward links (falling
back to the current roster if none carries one) and the corresponding link's
destination hash as the new root. -/
def specRecursionTarget (current : Roster) (b : SkipBlock) : Roster × Hash :=
  match (b.forwardLinks.filterMap (fun l => l.newRoster.map (fun r => (r, l.«to»)))).getLast? with
  | some p => p
  | none =>
    (current,
      match b.forwardLinks.getLast? with
      | some l => l.«to»
      | none => b.hash)

/-- Modelled from the spec: `getLatestBlock` as described in §4.3, identical
to the implementation's loop except that the `Recursing` transition restarts
with `specRecursionTarget` instead of the last block's own roster and own
hash. -/
def getLatestBlockSpec (env : Env) : Nat → Roster → Hash → Except GLBErr SkipBlock
  | 0, _, _ => .error .outOfFuel
  | fuel + 1, roster, latestID =>
    tryConns env
      (fun b => getLatestBlockSpec env fuel (specRecursionTarget roster b).1
        (specRecursionTarget roster b).2)
      latestID roster.list

/-- Success of one step of the pairwise loop, as a standalone predicate on an
adjacent pair: the later block's stored hash field equals its recomputed hash,
and the first forward link of the earlier block whose destination equals the
later block's stored hash exists and verifies against the earlier block's own
roster keys. -/
def pairOk (prev curr : SkipBlock) : Bool :=
  (curr.computeHash == curr.hash) &&
    (match prev.forwardLinks.find? (fun l => l.«to» == curr.hash) with
     | some l => l.sigOk (prev.roster.getServicePublics)
     | none => false)

/-! Concrete servers, rosters, blocks and environments used to evaluate the
definitions on explicit inputs. -/

/-- An aggregate signature valid exactly for the service keys of roster
`r`. -/
def sigFor (r : Roster) : Nat :=
  hashNats (r.getServicePublics)

def sA : ServerIdentity := ⟨1, 101⟩
def sB : ServerIdentity := ⟨2, 102⟩
def sC : ServerIdentity := ⟨3, 103⟩
def sD : ServerIdentity := ⟨4, 104⟩
def sZ : ServerIdentity := ⟨9, 109⟩

def RA : Roster := ⟨[sA]⟩
def RB : Roster := ⟨[sB]⟩
def RZ : Roster := ⟨[sZ]⟩
def R4 : Roster := ⟨[sA, sB, sC, sD]⟩

/-- Block with the given index, payload, roster, forward links and stored
hash field; the remaining content fields are fixed. -/
def mkBlock (idx payload : Nat) (r : Roster) (links : List ForwardLink) (h : Hash) : SkipBlock :=
  { index := idx, baseHeight := 1, maxHeight := 3, backlinks := [], genesis := 0,
    payload := payload, roster := r, forwardLinks := links, hash := h }

/-- The recomputed hash of any block built by `mkBlock` from these content
fields (it does not depend on the links or the stored hash field). -/
def contentHash (idx payload : Nat) (r : Roster) : Hash :=
  (mkBlock idx payload r [] 0).computeHash

/-- Well-formed second block of a two-block chain. -/
def b1A : SkipBlock := mkBlock 1 11 R4 [] (contentHash 1 11 R4)

/-- First block whose stored hash field (12345) differs from its recomputed
hash, but which carries a valid forward link to `b1A`. -/
def b0A : SkipBlock := mkBlock 0 10 R4 [⟨b1A.hash, none, sigFor R4⟩] 12345

/-- A link to `b1A` whose signature verifies for no key set used here. -/
def lbadB : ForwardLink := ⟨b1A.hash, none, 0⟩

/-- A link to `b1A` with a signature valid for `R4`'s keys. -/
def lgoodB : ForwardLink := ⟨b1A.hash, none, sigFor R4⟩

/-- First block carrying two links to `b1A`: the first with a bad signature,
the second with a good one. -/
def b0B : SkipBlock := mkBlock 0 10 R4 [lbadB, lgoodB] (contentHash 0 10 R4)

def b2C2 : SkipBlock := mkBlock 2 32 RA [] (contentHash 2 32 RA)

/-- Link to `b2C2` signed by the middle block's own roster `RB` — not by the
replacement roster `RZ` announced one step earlier. -/
def l1C2 : ForwardLink := ⟨b2C2.hash, none, sigFor RB⟩

def b1C2 : SkipBlock := mkBlock 1 31 RB [l1C2] (contentHash 1 31 RB)

/-- Link to `b1C2` signed by `RA` and announcing `RZ` as replacement
roster. -/
def l0C2 : ForwardLink := ⟨b1C2.hash, some RZ, sigFor RA⟩

def b0C2 : SkipBlock := mkBlock 0 30 RA [l0C2] (contentHash 0 30 RA)

/-- Three-block chain whose rotation point announces `RZ`, while the
post-rotation link is signed by the middle block's own roster. -/
def chainC2 : List SkipBlock := [b0C2, b1C2, b2C2]

/-- A lone block whose stored hash field (777) differs from its recomputed
hash. -/
def bC3 : SkipBlock := mkBlock 0 40 RA [] 777

/-- Environment in which `sA` answers a request for `bC3`'s recomputed hash
with the single-block chain `[bC3]`. -/
def envC3 : Env := fun c h =>
  if c = sA ∧ h = bC3.computeHash then some [bC3] else none

/-- Self-referential tip: roster `RA`, correct stored hash, one dangling
forward link. -/
def bCyc : SkipBlock := mkBlock 1 50 RA [⟨999, none, 0⟩] (contentHash 1 50 RA)

/-- Environment in which `sA` always answers a request for `bCyc.hash` with
`[bCyc]`, whose roster is again `RA`: the recursion re-enters the same
(roster, root) pair forever. -/
def envCyc : Env := fun c h =>
  if c = sA ∧ h = bCyc.hash then some [bCyc] else none

def tip2C5 : SkipBlock := mkBlock 7 77 RZ [] (contentHash 7 77 RZ)

/-- Forward link on the last returned block: destination `tip2C5.hash`,
replacement roster `RZ`. -/
def lC5 : ForwardLink := ⟨tip2C5.hash, some RZ, 0⟩

def bLastC5 : SkipBlock := mkBlock 4 44 RB [lC5] (contentHash 4 44 RB)

/-- Same content as `bLastC5` but with no forward links: what `RB`'s member
returns as the tip. -/
def tip1C5 : SkipBlock := mkBlock 4 44 RB [] (contentHash 4 44 RB)

def rootC5 : Hash := bLastC5.hash

/-- Environment for the rotation scenario: `sA` returns `[bLastC5]`; `sB`
(the last block's own roster) returns `[tip1C5]`; `sZ` (the replacement
roster) returns `[tip2C5]` for the link's destination hash. -/
def envC5 : Env := fun c h =>
  if c = sA ∧ h = rootC5 then some [bLastC5]
  else if c = sB ∧ h = rootC5 then some [tip1C5]
  else if c = sZ ∧ h = tip2C5.hash then some [tip2C5]
  else none

/-- Verified block whose roster `RZ` is unreachable and whose forward link
triggers recursion. -/
def bL6 : SkipBlock := mkBlock 8 81 RZ [⟨0, none, 0⟩] (contentHash 8 81 RZ)

def root6 : Hash := bL6.hash

/-- Same content as `bL6` with no forward links: the tip `sB` would have
served. -/
def tip6p : SkipBlock := mkBlock 8 81 RZ [] (contentHash 8 81 RZ)

def R6 : Roster := ⟨[sA, sB]⟩

/-- Environment in which `sA` serves a verifiable chain that forces a
recursion into the unreachable roster `RZ`, while `sB` would serve a perfect
tip. -/
def env6 : Env := fun c h =>
  if c = sA ∧ h = root6 then some [bL6]
  else if c = sB ∧ h = root6 then some [tip6p]
  else none

def tip7 : SkipBlock := mkBlock 3 73 R4 [] (contentHash 3 73 R4)

def root7 : Hash := tip7.hash

/-- Environment in which only `sC` answers (with the verifiable single-block
chain `[tip7]`); `sA`, `sB` and `sD` are unreachable. -/
def env7 : Env := fun c h =>
  if c = sC ∧ h = root7 then some [tip7] else none

def replyGood : GetSingleBlockByIndexReply := ⟨b1A⟩
def replyBad : GetSingleBlockByIndexReply := ⟨bC3⟩

/-! Helper lemmas about the failover loop. -/

/-- A member whose reply is a transport failure or a non-verifying chain is
skipped: the loop continues with the remaining members. -/
theorem tryConns_skip {env : Env} {recurse : SkipBlock → Except GLBErr SkipBlock}
    {latestID : Hash} {c : ServerIdentity} {rest : List ServerIdentity}
    (h : memberFails env latestID c = true) :
    tryConns env recurse latestID (c :: rest) = tryConns env recurse latestID rest := by
  unfold memberFails at h
  cases henv : env c latestID with
  | none => simp [tryConns, henv]
  | some update =>
    rw [henv] at h
    have h2 : (verifyChain update (some latestID)).isSome = true := h
    cases hv : verifyChain update (some latestID) with
    | none => rw [hv] at h2; simp at h2
    | some e => simp [tryConns, henv, hv]

/-- A whole prefix of failing members is skipped. -/
theorem tryConns_skipPre {env : Env} {recurse : SkipBlock → Except GLBErr SkipBlock}
    {latestID : Hash} {pre conns : List ServerIdentity}
    (hpre : ∀ m ∈ pre, memberFails env latestID m = true) :
    tryConns env recurse latestID (pre ++ conns) = tryConns env recurse latestID conns := by
  induction pre with
  | nil => rfl
  | cons m pre ih =>
    rw [List.cons_append, tryConns_skip (hpre m (by simp))]
    exact ih (fun x hx => hpre x (by simp [hx]))

/-- A member whose reply verifies resolves the loop: its chain's last block is
returned when it has no forward links, and otherwise the recursion's result is
returned. -/
theorem tryConns_hit {env : Env} {recurse : SkipBlock → Except GLBErr SkipBlock}
    {latestID : Hash} {c : ServerIdentity} {rest : List ServerIdentity}
    {update : List SkipBlock} {b : SkipBlock}
    (henv : env c latestID = some update)
    (hver : verifyChain update (some latestID) = none)
    (hlast : update.getLast? = some b) :
    tryConns env recurse latestID (c :: rest) =
      (if b.forwardLinks.isEmpty then .ok b else recurse b) := by
  simp [tryConns, henv, hver, hlast]

/-- A member that produces a verifying reply does not fail in the sense of the
loop. -/
theorem memberFails_false {env : Env} {latestID : Hash} {c : ServerIdentity}
    {update : List SkipBlock}
    (henv : env c latestID = some update)
    (hver : verifyChain update (some latestID) = none) :
    memberFails env latestID c = false := by
  unfold memberFails
  rw [henv]
  show (verifyChain update (some latestID)).isSome = false
  rw [hver]
  rfl

/-- Counting the failed attempts before the first succeeding member. -/
theorem failedAttempts_concat {env : Env} {latestID : Hash}
    {pre : List ServerIdentity} {c : ServerIdentity} {rest : List ServerIdentity}
    (hpre : ∀ m ∈ pre, memberFails env latestID m = true)
    (hc : memberFails env latestID c = false) :
    failedAttemptsBefore env latestID (pre ++ c :: rest) = pre.length := by
  induction pre with
  | nil => simp [failedAttemptsBefore, List.takeWhile_cons, hc]
  | cons m pre ih =>
    have hm : memberFails env latestID m = true := hpre m (by simp)
    have ih' := ih (fun x hx => hpre x (by simp [hx]))
    simp only [failedAttemptsBefore, List.cons_append, List.takeWhile_cons, hm] at ih' ⊢
    simp [ih']

/-- C8: for every block sequence with a first block and every pinned first
identity, `verifyChain` fails with the identity-mismatch error whenever the
pinned identity differs from the recomputed hash of the first block,
regardless of the rest of the sequence — the check precedes every pairwise
link or hash check. -/
theorem verifyChain_pinned_mismatch (b0 : SkipBlock) (rest : List SkipBlock) (fid : Hash)
    (h : b0.computeHash ≠ fid) :
    verifyChain (b0 :: rest) (some fid) = some .identityMismatch := by
  simp [verifyChain, h]

/-- Witness for C8: pinning the two-block chain to the wrong identity 0 fails
with the identity-mismatch error. -/
theorem verifyChain_pinned_mismatch_inst :
    verifyChain [b1A] (some 0) = some ChainErr.identityMismatch :=
  verifyChain_pinned_mismatch b1A [] 0 (by decide)

/-- C10: a single-element sequence with no pinned first identity is accepted
unconditionally — the pairwise loop never runs, so the lone block's stored
hash field, forward links and signatures are never examined. -/
theorem verifyChain_singleton_accepts (b : SkipBlock) :
    verifyChain [b] none = none := rfl

/-- C9: the single-block fetchers succeed exactly on a self-consistent reply
(recomputed hash equal to the stored hash field), fail with the corrupt-block
error otherwise, and examine no forward link or signature. -/
theorem getSkipBlock_self_consistency (b : SkipBlock) (r : GetSingleBlockByIndexReply) :
    (getSkipBlock b = .ok b ↔ b.computeHash = b.hash)
    ∧ (b.computeHash ≠ b.hash → getSkipBlock b = .error .corruptBlock)
    ∧ (getSkipBlockByIndex r = .ok r ↔ r.skipblock.computeHash = r.skipblock.hash)
    ∧ (r.skipblock.computeHash ≠ r.skipblock.hash →
        getSkipBlockByIndex r = .error .corruptBlock) := by
  unfold getSkipBlock getSkipBlockByIndex
  by_cases hb : b.computeHash = b.hash <;>
    by_cases hr : r.skipblock.computeHash = r.skipblock.hash <;>
      simp [hb, hr]

/-- Witness for C9: the fetchers accept the self-consistent block `b1A` and
reply `replyGood`, and reject the corrupted block `bC3` and reply
`replyBad`. -/
theorem getSkipBlock_self_consistency_inst :
    getSkipBlock b1A = .ok b1A
    ∧ getSkipBlock bC3 = .error .corruptBlock
    ∧ getSkipBlockByIndex replyGood = .ok replyGood
    ∧ getSkipBlockByIndex replyBad = .error .corruptBlock :=
  ⟨(getSkipBlock_self_consistency b1A replyGood).1.mpr (by decide),
   (getSkipBlock_self_consistency bC3 replyBad).2.1 (by decide),
   (getSkipBlock_self_consistency b1A replyGood).2.2.1.mpr (by decide),
   (getSkipBlock_self_consistency bC3 replyBad).2.2.2 (by decide)⟩

/-- The pairwise loop succeeds exactly when every adjacent pair satisfies
`pairOk`. -/
theorem verifyPairs_eq_none_iff (rest : List SkipBlock) :
    ∀ prev, (verifyPairs prev rest = none ↔
      List.Chain' (fun p c => pairOk p c = true) (prev :: rest)) := by
  induction rest with
  | nil => intro prev; simp [verifyPairs]
  | cons curr rest ih =>
    intro prev
    rw [List.chain'_cons]
    unfold verifyPairs
    cases h1 : (curr.computeHash == curr.hash) with
    | false => simp [pairOk, h1]
    | true =>
      cases hE : prev.forwardLinks.isEmpty with
      | true =>
        have hnil : prev.forwardLinks = [] := List.isEmpty_iff.mp hE
        simp [h1, hE, pairOk, hnil]
      | false =>
        cases hf : prev.forwardLinks.find? (fun l => l.«to» == curr.hash) with
        | none => simp [h1, hE, hf, pairOk]
        | some link =>
          cases hB : link.sigOk (prev.roster.getServicePublics) with
          | false => simp [h1, hE, hf, hB, pairOk]
          | true => simp [h1, hE, hf, hB, pairOk, ih curr]

/-- C1 (amended): for every non-empty sequence with no pinned first identity,
`verifyChain` succeeds iff every adjacent pair passes the pairwise check: the
later block's stored hash field equals its recomputed hash and the first
forward link of the earlier block whose destination equals that stored hash
verifies against the earlier block's own roster keys.  The first block's
stored hash field is not part of the characterization, and the link that must
verify is the first matching one, not an arbitrary matching one. -/
theorem verifyChain_eq_none_iff_chain (blocks : List SkipBlock) (h : blocks ≠ []) :
    (verifyChain blocks none = none ↔
      List.Chain' (fun p c => pairOk p c = true) blocks) := by
  cases blocks with
  | nil => exact absurd rfl h
  | cons b0 rest => exact verifyPairs_eq_none_iff rest b0

/-- Witness for C1 (amended): the two-block chain `[b0A, b1A]` is accepted,
hence every adjacent pair passes the pairwise check. -/
theorem verifyChain_eq_none_iff_chain_inst :
    List.Chain' (fun p c => pairOk p c = true) [b0A, b1A] :=
  (verifyChain_eq_none_iff_chain [b0A, b1A] (List.cons_ne_nil _ _)).mp rfl

/-- Counterexample to C1 as stated: `[b0A, b1A]` is accepted although the
first block's stored hash field differs from its recomputed hash, and
`[b0B, b1A]` is rejected although `b0B` carries a forward link (`lgoodB`)
whose destination equals `b1A`'s recomputed hash and whose signature verifies
— the code only checks the first matching link, `lbadB`. -/
theorem verifyChain_accepts_bad_first_hash :
    verifyChain [b0A, b1A] none = none
    ∧ SkipBlock.computeHash b0A ≠ b0A.hash
    ∧ verifyChain [b0B, b1A] none = some ChainErr.invalidSignature
    ∧ lgoodB ∈ b0B.forwardLinks
    ∧ lgoodB.«to» = SkipBlock.computeHash b1A
    ∧ lgoodB.sigOk (b0B.roster.getServicePublics) = true
    ∧ SkipBlock.computeHash b0B = b0B.hash
    ∧ SkipBlock.computeHash b1A = b1A.hash :=
  ⟨rfl, by decide, rfl, by decide, by decide, by decide, by decide, by decide⟩

/-- C2 (amended): the key set used to verify a matched forward link is always
the previous block's own roster's service public keys — `verifyChain` keeps no
running trusted-keys state and ignores replacement rosters carried by earlier
links: the step outcome depends only on the link's signature against the
previous block's own roster. -/
theorem verifyChain_link_checked_against_prev_roster
    (prev curr : SkipBlock) (rest : List SkipBlock) (link : ForwardLink)
    (hh : curr.computeHash = curr.hash)
    (hf : prev.forwardLinks.find? (fun l => l.«to» == curr.hash) = some link) :
    verifyChain (prev :: curr :: rest) none =
      (if link.sigOk (prev.roster.getServicePublics) then verifyChain (curr :: rest) none
       else some ChainErr.invalidSignature) := by
  have hne : prev.forwardLinks.isEmpty = false := by
    cases hfl : prev.forwardLinks with
    | nil => rw [hfl] at hf; simp at hf
    | cons a l => rfl
  show verifyPairs prev (curr :: rest) = _
  unfold verifyPairs
  cases hB : link.sigOk (prev.roster.getServicePublics) with
  | false => simp [hh, hne, hf, hB]
  | true =>
    simp [hh, hne, hf, hB]
    rfl

/-- Witness for C2 (amended): instantiating at the post-rotation pair of
`chainC2` — the step is decided by `l1C2`'s signature against `b1C2`'s own
roster keys. -/
theorem verifyChain_link_checked_against_prev_roster_inst :
    verifyChain [b1C2, b2C2] none =
      (if l1C2.sigOk (b1C2.roster.getServicePublics) then verifyChain [b2C2] none
       else some ChainErr.invalidSignature) :=
  verifyChain_link_checked_against_prev_roster b1C2 b2C2 [] l1C2 (by decide) (by decide)

/-- Counterexample to C2 as stated: the implementation accepts `chainC2`
although its post-rotation link `l1C2` does not verify against the replacement
roster `RZ` announced by the matched link `l0C2`; the spec's trusted-keys
algorithm (`verifyChainSpec`) rejects the same chain with an invalid-signature
error. -/
theorem verifyChain_ignores_replacement_roster :
    verifyChain chainC2 none = none
    ∧ verifyChainSpec chainC2 none = some ChainErr.invalidSignature
    ∧ l0C2.newRoster = some RZ
    ∧ sigVerify l1C2.signature (RZ.getServicePublics) = false :=
  ⟨rfl, rfl, rfl, by decide⟩

/-- Every block after the first of a sequence accepted by the pairwise loop
has its stored hash field equal to its recomputed hash. -/
theorem verifyPairs_tail_hash (rest : List SkipBlock) :
    ∀ prev, verifyPairs prev rest = none →
      ∀ b ∈ rest, b.computeHash = b.hash := by
  induction rest with
  | nil => intro prev _ b hb; simp at hb
  | cons curr rest ih =>
    intro prev h b hb
    unfold verifyPairs at h
    cases h1 : (curr.computeHash == curr.hash) with
    | false => simp [h1] at h
    | true =>
      cases hE : prev.forwardLinks.isEmpty with
      | true => simp [h1, hE] at h
      | false =>
        cases hf : prev.forwardLinks.find? (fun l => l.«to» == curr.hash) with
        | none => simp [h1, hE, hf] at h
        | some link =>
          cases hB : link.sigOk (prev.roster.getServicePublics) with
          | false => simp [h1, hE, hf, hB] at h
          | true =>
            simp only [h1, hE, hf, hB, Bool.not_true, Bool.false_eq_true,
              if_false] at h
            rcases List.mem_cons.mp hb with hbc | hbr
            · subst hbc; exact eq_of_beq h1
            · exact ih curr h b hbr

/-- A successful outcome of the member loop is either the last block of a
chain that verified against the requested id, or the recursion's outcome on
some block. -/
theorem tryConns_ok_cases {env : Env} {recurse : SkipBlock → Except GLBErr SkipBlock}
    {latestID : Hash} {b : SkipBlock} (conns : List ServerIdentity)
    (h : tryConns env recurse latestID conns = .ok b) :
    (∃ update, verifyChain update (some latestID) = none
       ∧ update.getLast? = some b ∧ b.forwardLinks.isEmpty = true)
    ∨ ∃ bl, recurse bl = .ok b := by
  induction conns with
  | nil => simp [tryConns] at h
  | cons c rest ih =>
    unfold tryConns at h
    cases henv : env c latestID with
    | none => simp only [henv] at h; exact ih h
    | some update =>
      simp only [henv] at h
      cases hv : verifyChain update (some latestID) with
      | some e => simp only [hv] at h; exact ih h
      | none =>
        simp only [hv] at h
        cases hl : update.getLast? with
        | none => simp only [hl] at h; exact ih h
        | some bl =>
          simp only [hl] at h
          cases hfl : bl.forwardLinks.isEmpty with
          | true =>
            simp only [hfl, if_true] at h
            have hb : bl = b := by cases h; rfl
            subst hb
            exact Or.inl ⟨update, hv, hl, hfl⟩
          | false =>
            simp only [hfl, Bool.false_eq_true, if_false] at h
            exact Or.inr ⟨bl, h⟩

/-- Every block returned by `getLatestBlock` is the last block of some reply
that `verifyChain` accepted pinned to some root, and has no forward links. -/
theorem getLatestBlock_ok_from_verified (fuel : Nat) :
    ∀ (env : Env) (r : Roster) (latestID : Hash) (b : SkipBlock),
      getLatestBlock env fuel r latestID = .ok b →
        ∃ update root, verifyChain update (some root) = none
          ∧ update.getLast? = some b ∧ b.forwardLinks.isEmpty = true := by
  induction fuel with
  | zero => intro env r latestID b h; simp [getLatestBlock] at h
  | succ fuel ih =>
    intro env r latestID b h
    rcases tryConns_ok_cases r.list h with ⟨update, hv, hl, hfl⟩ | ⟨bl, hr⟩
    · exact ⟨update, latestID, hv, hl, hfl⟩
    · exact ih env bl.roster bl.hash b hr

/-- C3 (amended): a sequence accepted by `verifyChain` has every block after
the first with stored hash field equal to its recomputed hash — the first
block's stored hash field is never compared to anything — and every block
returned by `getLatestBlock` is the linkless last block of a reply that
`verifyChain` accepted pinned to some root; its stored hash field is therefore
checked exactly when that reply has a block before it. -/
theorem accepted_blocks_hash_invariant :
    (∀ (blocks : List SkipBlock) (fid : Option Hash) (b : SkipBlock),
        verifyChain blocks fid = none → b ∈ blocks.tail → b.computeHash = b.hash)
    ∧ (∀ (env : Env) (fuel : Nat) (r : Roster) (latestID : Hash) (b : SkipBlock),
        getLatestBlock env fuel r latestID = .ok b →
          ∃ update root, verifyChain update (some root) = none
            ∧ update.getLast? = some b ∧ b.forwardLinks.isEmpty = true) := by
  constructor
  · intro blocks fid b h hb
    cases blocks with
    | nil => simp at hb
    | cons b0 rest =>
      simp only [List.tail_cons] at hb
      cases fid with
      | none => exact verifyPairs_tail_hash rest b0 h b hb
      | some f =>
        unfold verifyChain at h
        cases hp : (b0.computeHash == f) with
        | false => simp [hp] at h
        | true =>
          simp only [hp, Bool.not_true, Bool.false_eq_true, if_false] at h
          exact verifyPairs_tail_hash rest b0 h b hb
  · intro env fuel r latestID b h
    exact getLatestBlock_ok_from_verified fuel env r latestID b h

/-- Witness for C3 (amended): the checked tail block of the accepted chain
`[b0A, b1A]` has matching hashes, and the block returned by `getLatestBlock`
in `envC3` is the linkless last block of a reply accepted against its root. -/
theorem accepted_blocks_hash_invariant_inst :
    SkipBlock.computeHash b1A = b1A.hash
    ∧ ∃ update root, verifyChain update (some root) = none
        ∧ update.getLast? = some bC3 ∧ bC3.forwardLinks.isEmpty = true :=
  ⟨accepted_blocks_hash_invariant.1 [b0A, b1A] none b1A rfl (List.Mem.head _),
   accepted_blocks_hash_invariant.2 envC3 1 RA (SkipBlock.computeHash bC3) bC3 rfl⟩

/-- Counterexample to C3 as stated: the single-block chain `[bC3]` is accepted
(pinned to its recomputed hash) although `bC3`'s stored hash field differs
from its recomputed hash, and `getLatestBlock` silently returns exactly this
block. -/
theorem verifyChain_first_block_hash_unchecked :
    verifyChain [bC3] (some (SkipBlock.computeHash bC3)) = none
    ∧ SkipBlock.computeHash bC3 ≠ bC3.hash
    ∧ getLatestBlock envC3 1 RA (SkipBlock.computeHash bC3) = .ok bC3 :=
  ⟨rfl, by decide, rfl⟩

/-- C4 (amended): `getLatestBlock` keeps no visited set — when the
roster-rotation recursion re-enters the already-attempted pair
(`RA`, `bCyc.hash`) it simply recurses again, so in the cyclic environment
`envCyc` every recursion-depth budget is exhausted and no distinct
cycle-detection error is ever produced (the implementation has none). -/
theorem getLatestBlock_cycle_spins_forever (fuel : Nat) :
    getLatestBlock envCyc fuel RA bCyc.hash = .error .outOfFuel := by
  induction fuel with
  | zero => rfl
  | succ fuel ih =>
    have h : getLatestBlock envCyc (fuel + 1) RA bCyc.hash
        = getLatestBlock envCyc fuel RA bCyc.hash := rfl
    rw [h]
    exact ih

/-- Counterexample to C4 as stated: in `envCyc` the pair (`RA`, `bCyc.hash`)
is re-entered at every step, yet at depth budget 50 the call is still
recursing (the model's out-of-fuel artifact) — it neither terminates with a
cycle-detection error nor with any other outcome, and the responding member is
not even failing. -/
theorem getLatestBlock_cycle_no_error :
    getLatestBlock envCyc 50 RA bCyc.hash = .error .outOfFuel
    ∧ memberFails envCyc bCyc.hash sA = false :=
  ⟨rfl, by decide⟩

/-- C5 (amended): when the lowest-indexed member that produces a verifiable
chain yields a last block with one or more forward links, `getLatestBlock`
restarts the query with that block's own roster and that block's own stored
hash — not with a replacement roster carried by the links nor with a link's
destination hash. -/
theorem getLatestBlock_recurses_with_own_roster_and_hash
    (env : Env) (fuel : Nat) (roster : Roster) (latestID : Hash)
    (pre : List ServerIdentity) (c : ServerIdentity) (rest : List ServerIdentity)
    (update : List SkipBlock) (b : SkipBlock)
    (hlist : roster.list = pre ++ c :: rest)
    (hpre : ∀ m ∈ pre, memberFails env latestID m = true)
    (henv : env c latestID = some update)
    (hver : verifyChain update (some latestID) = none)
    (hlast : update.getLast? = some b)
    (hfl : b.forwardLinks.isEmpty = false) :
    getLatestBlock env (fuel + 1) roster latestID
      = getLatestBlock env fuel b.roster b.hash := by
  show tryConns env (fun bl => getLatestBlock env fuel bl.roster bl.hash)
    latestID roster.list = _
  rw [hlist, tryConns_skipPre hpre, tryConns_hit henv hver hlast, hfl]
  simp

/-- Witness for C5 (amended): in `envC5`, the first member's verified chain
ends in `bLastC5`, which has a forward link, and the call restarts with
`bLastC5`'s own roster and own hash. -/
theorem getLatestBlock_recurses_with_own_roster_and_hash_inst :
    getLatestBlock envC5 2 RA rootC5
      = getLatestBlock envC5 1 bLastC5.roster bLastC5.hash :=
  getLatestBlock_recurses_with_own_roster_and_hash envC5 1 RA rootC5 [] sA []
    [bLastC5] bLastC5 rfl (by simp) rfl rfl rfl rfl

/-- Counterexample to C5 as stated: in `envC5` the last block's forward link
carries the replacement roster `RZ` and destination `tip2C5.hash`, yet the
implementation restarts with the block's own roster and own hash and returns
`tip1C5`; restarting as the claim describes (`getLatestBlockSpec`) returns the
different block `tip2C5`. -/
theorem getLatestBlock_recursion_differs_from_spec :
    getLatestBlock envC5 2 RA rootC5 = .ok tip1C5
    ∧ getLatestBlockSpec envC5 2 RA rootC5 = .ok tip2C5
    ∧ bLastC5.forwardLinks = [lC5]
    ∧ lC5.newRoster = some RZ
    ∧ tip1C5 ≠ tip2C5 :=
  ⟨rfl, rfl, rfl, rfl, by decide⟩

/-- C6 (amended): a failing member (transport failure or non-verifying chain)
is swallowed and the call continues with the remaining members, and when every
member of the roster fails the call surfaces the terminal no-conode error.
(The counterexample shows the "only when every member failed" direction of the
original claim is false: a failed recursion aborts the call without trying the
remaining members.) -/
theorem getLatestBlock_skips_failing_member_and_exhausts :
    (∀ (env : Env) (fuel : Nat) (latestID : Hash) (r1 r2 : Roster) (m : ServerIdentity),
        r1.list = m :: r2.list → memberFails env latestID m = true →
        getLatestBlock env (fuel + 1) r1 latestID
          = getLatestBlock env (fuel + 1) r2 latestID)
    ∧ (∀ (env : Env) (fuel : Nat) (latestID : Hash) (r : Roster),
        (∀ m ∈ r.list, memberFails env latestID m = true) →
        getLatestBlock env (fuel + 1) r latestID = .error .noConode) := by
  constructor
  · intro env fuel latestID r1 r2 m hm hf
    show tryConns env (fun bl => getLatestBlock env fuel bl.roster bl.hash)
      latestID r1.list = tryConns env (fun bl => getLatestBlock env fuel bl.roster bl.hash)
      latestID r2.list
    rw [hm, tryConns_skip hf]
  · intro env fuel latestID r hall
    show tryConns env (fun bl => getLatestBlock env fuel bl.roster bl.hash)
      latestID r.list = _
    have h2 := @tryConns_skipPre env
      (fun bl => getLatestBlock env fuel bl.roster bl.hash) latestID r.list [] hall
    rw [List.append_nil] at h2
    rw [h2]
    rfl

/-- Witness for C6 (amended): in `env6` the unreachable member `sZ` at the
head of the roster is skipped, and the roster `RZ` of only unreachable members
exhausts with the no-conode error. -/
theorem getLatestBlock_skips_failing_member_and_exhausts_inst :
    getLatestBlock env6 2 (Roster.mk [sZ, sB]) root6 = getLatestBlock env6 2 RB root6
    ∧ getLatestBlock env6 1 RZ root6 = .error .noConode :=
  ⟨getLatestBlock_skips_failing_member_and_exhausts.1 env6 1 root6 ⟨[sZ, sB]⟩ RB sZ
      rfl (by decide),
   getLatestBlock_skips_failing_member_and_exhausts.2 env6 0 root6 RZ (by decide)⟩

/-- Counterexample to C6 as stated: in `env6` the call surfaces the terminal
error although member `sB` of the roster does not fail — `sA`'s verified chain
triggers a recursion into the unreachable roster `RZ`, and that recursion's
failure aborts the call without ever contacting `sB`, which on its own would
produce the tip. -/
theorem getLatestBlock_recursion_failure_aborts :
    getLatestBlock env6 2 R6 root6 = .error .noConode
    ∧ sB ∈ R6.list
    ∧ memberFails env6 root6 sB = false
    ∧ getLatestBlock env6 1 RB root6 = .ok tip6p :=
  ⟨rfl, by decide, by decide, rfl⟩

/-- C7: members are tried sequentially from index 0, so the lowest-indexed
member that produces a verifiable chain determines the result: when that
chain's last block has zero forward links it is returned as the tip, after
exactly as many failed attempts as there are failing members before that
member. -/
theorem getLatestBlock_first_verifiable_member_wins
    (env : Env) (fuel : Nat) (roster : Roster) (latestID : Hash)
    (pre : List ServerIdentity) (c : ServerIdentity) (rest : List ServerIdentity)
    (update : List SkipBlock) (b : SkipBlock)
    (hlist : roster.list = pre ++ c :: rest)
    (hpre : ∀ m ∈ pre, memberFails env latestID m = true)
    (henv : env c latestID = some update)
    (hver : verifyChain update (some latestID) = none)
    (hlast : update.getLast? = some b)
    (hfl : b.forwardLinks.isEmpty = true) :
    getLatestBlock env (fuel + 1) roster latestID = .ok b
    ∧ failedAttemptsBefore env latestID roster.list = pre.length := by
  constructor
  · show tryConns env (fun bl => getLatestBlock env fuel bl.roster bl.hash)
      latestID roster.list = _
    rw [hlist, tryConns_skipPre hpre, tryConns_hit henv hver hlast, hfl]
    simp
  · rw [hlist]
    exact failedAttempts_concat hpre (memberFails_false henv hver)

/-- Witness for C7: with members `[sA, sB, sC, sD]` where `sA` and `sB` are
unreachable and `sC` returns the verifiable single-block chain `[tip7]` whose
tip has zero forward links, the call returns that tip after exactly two failed
attempts. -/
theorem getLatestBlock_first_verifiable_member_wins_inst :
    getLatestBlock env7 1 R4 root7 = .ok tip7
    ∧ failedAttemptsBefore env7 root7 R4.list = 2 :=
  getLatestBlock_first_verifiable_member_wins env7 0 R4 root7 [sA, sB] sC [sD]
    [tip7] tip7 rfl (by decide) rfl rfl rfl rfl

end Skipchain
